import Mathlib

/-!
Shallow embedding of `supervised/tuner/mljar_tuner.py` (class `MljarTuner`):
the staged candidate-configuration generator of the mljar-supervised
model-selection pipeline.  Python dictionaries are embedded as ordered
association lists, mutation as explicit state passing; the deduplication
ledger `self._unique_params_keys` is threaded through every stage function.
External collaborators (algorithm registry, random-parameter sampler,
preprocessing synthesizer, hill-climbing neighbor generator, the
drop-feature manifest file) are abstracted as an `Env` record of
deterministic functions, mirroring their interfaces.
-/

namespace MljarTuner

/-- Universe of values stored in the embedded parameter dictionaries
(`preprocessing`, `learner`, `validation_strategy`, hyperparameter sets).
Numeric hyperparameters are embedded as integers; no claim performs
floating-point arithmetic, so this loses nothing the claims need.
`gfMark` embeds the golden-features request dict
`{"results_path": ..., "ml_task": ...}` attached by `get_golden_features_params`. -/
inductive V where
  | str : String → V
  | int : Int → V
  | boolV : Bool → V
  | null : V
  | strList : List String → V
  | strListDict : List (String × List String) → V
  | gfMark : String → String → V
deriving DecidableEq, Repr

/-- Candidate names.  In the source a name is the string
`f"{models_cnt}_" + special + model_type` possibly extended by provenance
suffixes; the ordinal prefix is recovered by `int(name.split("_")[0])`.
We embed an indexed name structurally as its ordinal plus the remainder
after the first underscore (`indexed idx rest` renders as
`toString idx ++ "_" ++ rest`); `plain` covers driver-side names that carry
no ordinal (the ensemble descriptors "Ensemble"/"Ensemble_Stacked"). -/
inductive Name where
  | indexed : Nat → String → Name
  | plain : String → Name
deriving DecidableEq, Repr

/-- Appending a provenance suffix to a name (`params["name"] += suffix`);
every suffix in the source starts with an underscore, so it lands in the
`rest` component of an indexed name and the ordinal prefix is unchanged. -/
def Name.addSuffix : Name → String → Name
  | Name.indexed i r, s => Name.indexed i (r ++ s)
  | Name.plain p, s => Name.plain (p ++ s)

/-- Ordinal prefix of a name, as parsed by
`int(m.get_name().split("_")[0])`; `none` for names with no ordinal
(the source raises `ValueError` there, a caller contract violation per
spec section 7, so no stage theorem depends on that branch). -/
def Name.idx? : Name → Option Nat
  | Name.indexed i _ => some i
  | Name.plain _ => none

/-- Python `str.replace(" ", "")`-style non-overlapping substring
replacement, fueled for structural termination; the fuel `s.length`
suffices because each step consumes at least one character of `s`
when the pattern is nonempty. -/
def replaceFuel (pat rep : List Char) : Nat → List Char → List Char
  | 0, s => s
  | _ + 1, [] => []
  | n + 1, c :: cs =>
    if pat.isPrefixOf (c :: cs) then rep ++ replaceFuel pat rep n ((c :: cs).drop pat.length)
    else c :: replaceFuel pat rep n cs

/-- Embeds `s.replace(pat, rep)` of the Python standard library, restricted to
nonempty patterns (the source only ever replaces nonempty literals). -/
def strReplace (s pat rep : String) : String :=
  if pat.data.isEmpty then s else String.mk (replaceFuel pat.data rep.data s.data.length s.data)

/-- Substring test on character lists, used for the dispatcher's
`"hill_climbing" in step` check. -/
def subListSearch (pat : List Char) : List Char → Bool
  | [] => pat.isEmpty
  | c :: cs => pat.isPrefixOf (c :: cs) || subListSearch pat cs

/-- Python `pat in s` substring containment. -/
def strContains (s pat : String) : Bool :=
  subListSearch pat.data s.data

/-- Embeds `d[k] = v` on an ordered dictionary: overwrite in place if the key is
present (CPython keeps the original insertion position; dict key lists
are duplicate-free, so overwriting the first occurrence is overwriting
the occurrence), else append. -/
def assocSet : List (String × V) → String → V → List (String × V)
  | [], k, v => [(k, v)]
  | kv :: rest, k, v => if kv.1 == k then (k, v) :: rest else kv :: assocSet rest k v

/-- Embeds `d.get(k)` lookup on an ordered dictionary. -/
def assocGet : List (String × V) → String → Option V
  | [], _ => none
  | kv :: rest, k => if kv.1 == k then some kv.2 else assocGet rest k

/-- Embeds `if k in d: del d[k]` — guarded deletion, a no-op when absent. -/
def assocDel (l : List (String × V)) (k : String) : List (String × V) :=
  l.filter (fun kv => !(kv.1 == k))

/-- Embeds `d[k] = v` on the inner `columns_preprocessing` dict (column name to
list of transform names). -/
def assocSetSL : List (String × List String) → String → List String → List (String × List String)
  | [], k, v => [(k, v)]
  | kv :: rest, k, v => if kv.1 == k then (k, v) :: rest else kv :: assocSetSL rest k v

/-- Rendering of a value inside the fingerprint string, standing in for
Python's `"{}".format(v)`.  The claims compare fingerprints only with each
other, so only the compositional structure of the key matters, not the
exact digits of the rendering. -/
def V.render : V → String
  | V.str s => s
  | V.int n => toString n
  | V.boolV b => if b then "True" else "False"
  | V.null => "None"
  | V.strList xs => String.join (xs.map (fun x => x ++ ","))
  | V.strListDict d => String.join (d.map (fun kv => kv.1 ++ ":" ++ String.join kv.2 ++ ";"))
  | V.gfMark rp t => "golden:" ++ rp ++ ":" ++ t

/-- Dataset descriptor (`data_info`): row/column counts and the optional
class count attached for multiclass tasks. -/
structure DataInfo where
  rows : Nat
  cols : Nat
  numClass : Option Nat
deriving DecidableEq, Repr

/-- A candidate configuration (the `params` dict built by the tuner).
Top-level dict keys become fields; `modelType` models the top-level
"model_type" key that only the ensemble descriptors carry. -/
structure Params where
  name : Name
  status : String
  finalLoss : Option Int
  trainTime : Option Int
  isStacked : Bool
  modelType : Option String
  explainLevel : Nat
  mlTask : String
  additional : List (String × V)
  preprocessing : List (String × V)
  validationStrategy : List (String × V)
  learner : List (String × V)
deriving DecidableEq, Repr

/-- Modelled from the spec: an element of the driver-supplied
"current models" list (spec section 3, External aggregates), queryable by
name, type and loss — the model-framework class itself is outside the
supplied source.  `loss` embeds `get_final_loss()` (an ordered stand-in
for the float loss — the tuner only compares losses), `mtype` embeds
`get_type()`, `stackedFlag` embeds the `_is_stacked` attribute, and the
model's name is read off its `params`. -/
structure Model where
  params : Params
  loss : Int
  mtype : String
  stackedFlag : Bool
deriving DecidableEq, Repr

/-- Registry metadata for one algorithm family
(`AlgorithmsRegistry.registry[ml_task][model_type]` plus the
`get_max_rows_limit` / `get_max_cols_limit` queries). -/
structure AlgoInfo where
  shortName : String
  defaultParams : List (String × V)
  paramSpace : List (String × V)
  requiredPreprocessing : List String
  additional : List (String × V)
  maxRows : Option Nat
  maxCols : Option Nat

/-- The external collaborators of spec section 6, as deterministic
functions: the algorithm registry, `RandomParameters.get`,
`PreprocessingTuner.get`, `HillClimbing.get`, and the drop-feature
manifest read (`path` to file content when the file exists). -/
structure Env where
  registry : String → String → AlgoInfo
  randomParams : List (String × V) → Nat → Option (List (String × V))
  preprocessingGet : List String → DataInfo → String → List (String × V)
  hillClimbing : List (String × V) → String → Nat → List (Option (List (String × V)))
  dropFeaturesFile : String → Option (List String)

/-- Tuner configuration: the constructor arguments of `MljarTuner`. -/
structure Config where
  startRandomModels : Nat
  hillClimbingSteps : Nat
  topModelsToImprove : Nat
  algorithms : List String
  mlTask : String
  validationStrategy : List (String × V)
  explainLevel : Nat
  dataInfo : DataInfo
  goldenFeatures : Bool
  featuresSelection : Bool
  trainEnsemble : Bool
  stackModels : Bool
  seed : Nat

/-- The `REGRESSION` task constant of `supervised.algorithms.registry`. -/
def REGRESSION : String := "regression"

/-- Embeds `MljarTuner.steps`: the stage plan, translated statement by statement
from the imperative list building of the source. -/
def steps (cfg : Config) : List String :=
  let allSteps := ["simple_algorithms", "default_algorithms"]
  let allSteps := if cfg.startRandomModels > 1 then allSteps ++ ["not_so_random"] else allSteps
  let allSteps := if cfg.goldenFeatures then allSteps ++ ["golden_features"] else allSteps
  let allSteps :=
    if cfg.featuresSelection then allSteps ++ ["insert_random_feature"] ++ ["features_selection"]
    else allSteps
  let allSteps :=
    allSteps ++ (List.range cfg.hillClimbingSteps).map (fun i => "hill_climbing_" ++ toString (i + 1))
  let allSteps := if cfg.trainEnsemble then allSteps ++ ["ensemble"] else allSteps
  let allSteps :=
    if cfg.stackModels then
      allSteps ++ ["stack"] ++ (if cfg.trainEnsemble then ["ensemble_stacked"] else [])
    else allSteps
  allSteps

/-- Embeds `MljarTuner.get_model_name`: `f"{models_cnt}_" + special + model_type.replace(" ", "")`. -/
def getModelName (modelType : String) (modelsCnt : Nat) (special : String) : Name :=
  Name.indexed modelsCnt (special ++ strReplace modelType " " "")

/-- The inner loop of `get_params_key`: extend the key by `_{k}_{v}` for
every entry of the dict except the one keyed `"seed"`. -/
def keyFold (init : String) (kvs : List (String × V)) : String :=
  kvs.foldl
    (fun acc kv => if kv.1 == "seed" then acc else acc ++ "_" ++ kv.1 ++ "_" ++ kv.2.render)
    init

/-- Embeds `MljarTuner.get_params_key`: the dedup fingerprint — iterates the
`preprocessing` then `learner` dicts in insertion order, skipping any
entry whose key is `"seed"`. -/
def getParamsKey (p : Params) : String :=
  keyFold (keyFold ("key_" ++ "preprocessing") p.preprocessing ++ "learner") p.learner

/-- The learner dict of `_get_model_params`:
`{"model_type": ..., "ml_task": ..., **model_params}` with `num_class`
appended for multiclass data (`data_info.get("num_class")` present). -/
def buildLearner (cfg : Config) (info : AlgoInfo) (mp : List (String × V)) :
    List (String × V) :=
  let learner0 : List (String × V) :=
    [("model_type", V.str info.shortName), ("ml_task", V.str cfg.mlTask)]
  let learner1 := mp.foldl (fun l kv => assocSet l kv.1 kv.2) learner0
  match cfg.dataInfo.numClass with
  | some k => assocSet learner1 "num_class" (V.int k)
  | none => learner1

/-- Embeds `MljarTuner._get_model_params` (the Candidate Factory): registry
lookup, default or sampled hyperparameters (`None` from the sampler
propagates), synthesized preprocessing, learner dict via `buildLearner`.
Name/status fields are placeholders the calling stage overwrites,
exactly as in the source where those keys are absent until the stage
sets them. -/
def getModelParams (cfg : Config) (env : Env) (modelType : String) (seed : Nat)
    (isDefault : Bool) : Option Params :=
  let info := env.registry cfg.mlTask modelType
  let modelParams? :=
    if isDefault then some (assocSet info.defaultParams "seed" (V.int seed))
    else env.randomParams info.paramSpace (seed + cfg.seed)
  match modelParams? with
  | none => none
  | some mp =>
    let pre := env.preprocessingGet info.requiredPreprocessing cfg.dataInfo cfg.mlTask
    some
      { name := Name.plain ""
        status := ""
        finalLoss := none
        trainTime := none
        isStacked := false
        modelType := none
        explainLevel := cfg.explainLevel
        mlTask := cfg.mlTask
        additional := info.additional
        preprocessing := pre
        validationStrategy := cfg.validationStrategy
        learner := buildLearner cfg info mp }

/-- Stable insertion into a list sorted by the Boolean relation `le`. -/
def insertSorted {α : Type} (le : α → α → Bool) (a : α) : List α → List α
  | [] => [a]
  | b :: bs => if le a b then a :: b :: bs else b :: insertSorted le a bs

/-- Stable insertion sort; embeds the `sort_values` orderings of the
source (the claims do not depend on how `sort_values` breaks ties, and a
stable ascending sort realizes one deterministic choice). -/
def isortBy {α : Type} (le : α → α → Bool) : List α → List α
  | [] => []
  | a :: as => insertSorted le a (isortBy le as)

/-- Lexicographic comparison on character lists by code point, the order
`np.unique` returns its (string) values in. -/
def charsLE : List Char → List Char → Bool
  | [], _ => true
  | _ :: _, [] => false
  | a :: as, b :: bs =>
    if a.toNat < b.toNat then true
    else if b.toNat < a.toNat then false
    else charsLE as bs

/-- Lexicographic string comparison (for the `np.unique` sort). -/
def strLEb (a b : String) : Bool := charsLE a.data b.data

/-- Embeds `df_models.groupby("model_type").apply(lambda x: x.sort_values("score"))`
restricted to one group: the models of one family, ascending by loss. -/
def sortedByLoss (ms : List Model) : List Model :=
  isortBy (fun a b => decide (a.loss ≤ b.loss)) ms

/-- The models of family `t`, sorted ascending by loss. -/
def modelsOfType (ms : List Model) (t : String) : List Model :=
  sortedByLoss (ms.filter (fun m => m.mtype == t))

/-- Duplicate removal on a list of strings (the result order is
irrelevant: `uniqueTypes` sorts it). -/
def dedupStr : List String → List String
  | [] => []
  | x :: xs => let r := dedupStr xs; if r.contains x then r else x :: r

/-- Embeds `np.unique(df_models.model_type)`: the distinct family names present,
in sorted order. -/
def uniqueTypes (ms : List Model) : List String :=
  isortBy strLEb (dedupStr (ms.map (fun m => m.mtype)))

/-- Embeds `np.max([int(m.get_name().split("_")[0]) for m in current_models])`:
the greatest ordinal prefix among the current models' names.  Names
without an ordinal are ignored (the source raises `ValueError` on them —
a caller contract violation); on an empty list the source never reaches
this expression. -/
def modelMaxIndex (ms : List Model) : Nat :=
  (ms.filterMap (fun m => m.params.name.idx?)).foldl max 0

/-- The ledger acceptance step shared by every fingerprint-checked stage:
append the candidate and record its fingerprint iff the fingerprint is
not already in the ledger. -/
def acceptStep (st : List String) (acc : List Params) (p : Params) : List String × List Params :=
  if st.contains (getParamsKey p) then (st, acc)
  else (st ++ [getParamsKey p], acc ++ [p])

/-- The generation loop shared by the fingerprint-checked stages: run
through the attempt list, building each candidate at the current ordinal
`init + acc.length` (the source increments its `models_cnt` — or offsets
by `len(generated_params)` — exactly on acceptance), skipping attempts
whose build fails, and passing built candidates through `acceptStep`. -/
def dedupFold {α : Type} (b : α → Nat → Option Params) (init : Nat) :
    List α → List String → List Params → List String × List Params
  | [], st, acc => (st, acc)
  | a :: rest, st, acc =>
    match b a (init + acc.length) with
    | none => dedupFold b init rest st acc
    | some p =>
      let sa := acceptStep st acc p
      dedupFold b init rest sa.1 sa.2

/-- The per-stage finalization `params["name"] = ...; params["status"] =
"initialized"; params["final_loss"] = None; params["train_time"] = None`. -/
def withNameStatus (p : Params) (nm : Name) : Params :=
  { p with name := nm, status := "initialized", finalLoss := none, trainTime := none }

/-- The family list of `simple_algorithms_params`. -/
def simpleFamilies : List String := ["Baseline", "Decision Tree", "Linear"]

/-- The seeds attempted by `simple_algorithms_params`: for each enabled
simple family, `min(3, start_random_models)` variants for Decision Tree
and one for the others. -/
def simpleAttempts (cfg : Config) : List (String × Nat) :=
  (simpleFamilies.filter (fun mt => cfg.algorithms.contains mt)).flatMap
    (fun mt =>
      let modelsToCheck := if mt == "Decision Tree" then min 3 cfg.startRandomModels else 1
      (List.range modelsToCheck).map (fun i => (mt, i)))

/-- One `simple_algorithms` candidate build: sampled parameters with
seed `i + 1`, named `{models_cnt + 1}_{type}`. -/
def simpleBuild (cfg : Config) (env : Env) (a : String × Nat) (n : Nat) : Option Params :=
  (getModelParams cfg env a.1 (a.2 + 1) false).map
    (fun p => withNameStatus p (getModelName a.1 (n + 1) ""))

/-- Embeds `MljarTuner.simple_algorithms_params` with the ledger threaded. -/
def simpleAlgorithmsParams (cfg : Config) (env : Env) (st : List String) :
    List String × List Params :=
  dedupFold (simpleBuild cfg env) 0 (simpleAttempts cfg) st []

/-- Tests `v > limit` when a limit is declared, `False` otherwise. -/
def exceedsLimit : Option Nat → Nat → Bool
  | some l, v => v > l
  | none, _ => false

/-- Embeds `MljarTuner.skip_if_rows_cols_limit`: skip a family whose declared
`max_rows` / `max_cols` is exceeded by the dataset. -/
def skipIfRowsColsLimit (cfg : Config) (env : Env) (mt : String) : Bool :=
  let info := env.registry cfg.mlTask mt
  exceedsLimit info.maxRows cfg.dataInfo.rows || exceedsLimit info.maxCols cfg.dataInfo.cols

/-- The family list of `default_params`. -/
def defaultFamilies : List String :=
  ["Random Forest", "Extra Trees", "Xgboost", "LightGBM", "CatBoost",
   "Neural Network", "Nearest Neighbors", "MLP"]

/-- The families `default_params` actually iterates: enabled and not
skipped by the row/column limits. -/
def defaultAttempts (cfg : Config) (env : Env) : List String :=
  defaultFamilies.filter
    (fun mt => cfg.algorithms.contains mt && !skipIfRowsColsLimit cfg env mt)

/-- One `default_params` candidate build: default-mode parameters with
seed `models_cnt + 1`, named `{models_cnt + 1}_Default_{type}`. -/
def defaultBuild (cfg : Config) (env : Env) (mt : String) (n : Nat) : Option Params :=
  (getModelParams cfg env mt (n + 1) true).map
    (fun p => withNameStatus p (getModelName mt (n + 1) "Default_"))

/-- Embeds `MljarTuner.default_params` with the ledger threaded. -/
def defaultParams (cfg : Config) (env : Env) (modelsCnt : Nat) (st : List String) :
    List String × List Params :=
  dedupFold (defaultBuild cfg env) modelsCnt (defaultAttempts cfg env) st []

/-- The family list of `get_not_so_random_params`. -/
def nsrFamilies : List String :=
  ["Xgboost", "LightGBM", "CatBoost", "Random Forest", "Extra Trees",
   "Neural Network", "Nearest Neighbors", "MLP"]

/-- The (family, seed-index) pairs `get_not_so_random_params` iterates:
`start_random_models - 1` sampled variants per eligible family. -/
def nsrAttempts (cfg : Config) (env : Env) : List (String × Nat) :=
  (nsrFamilies.filter
      (fun mt => cfg.algorithms.contains mt && !skipIfRowsColsLimit cfg env mt)).flatMap
    (fun mt => (List.range (cfg.startRandomModels - 1)).map (fun i => (mt, i)))

/-- One `get_not_so_random_params` candidate build. -/
def nsrBuild (cfg : Config) (env : Env) (a : String × Nat) (n : Nat) : Option Params :=
  (getModelParams cfg env a.1 (a.2 + 1) false).map
    (fun p => withNameStatus p (getModelName a.1 (n + 1) ""))

/-- Embeds `MljarTuner.get_not_so_random_params` with the ledger threaded. -/
def notSoRandomParams (cfg : Config) (env : Env) (modelsCnt : Nat) (st : List String) :
    List String × List Params :=
  dedupFold (nsrBuild cfg env) modelsCnt (nsrAttempts cfg env) st []

/-- Families hill climbing never tunes. -/
def hillExcluded : List String := ["Baseline", "Decision Tree", "Linear", "Nearest Neighbors"]

/-- Embeds `"drop_features" in preprocessing and len(preprocessing["drop_features"])`
(the value is a list of feature-name strings wherever the source writes it). -/
def dropFeaturesNonempty (pre : List (String × V)) : Bool :=
  match assocGet pre "drop_features" with
  | some (V.strList xs) => !xs.isEmpty
  | _ => false

/-- The learner's `model_type` entry as a string (the source indexes the
dict directly; every learner dict the tuner builds carries this key). -/
def learnerModelTypeStr (learner : List (String × V)) : String :=
  match assocGet learner "model_type" with
  | some (V.str s) => s
  | _ => ""

/-- The (parent model, neighbor) pairs `get_hill_climbing_params`
iterates: for each non-excluded family in `np.unique` order, the best
`top_models_to_improve` models by loss, each paired with every neighbor
returned by `HillClimbing.get(learner, ml_task, len(current_models) + seed)`. -/
def hillAttempts (cfg : Config) (env : Env) (models : List Model) :
    List (Model × Option (List (String × V))) :=
  ((uniqueTypes models).filter (fun t => !hillExcluded.contains t)).flatMap
    (fun t =>
      ((modelsOfType models t).take cfg.topModelsToImprove).flatMap
        (fun m =>
          (env.hillClimbing m.params.learner cfg.mlTask (models.length + cfg.seed)).map
            (fun p? => (m, p?))))

/-- One hill-climbing candidate: the parent's full configuration with the
learner replaced by the neighbor parameters, named at ordinal `n` with the
parent preprocessing's `_GoldenFeatures`/`_SelectedFeatures` markers
appended. -/
def hillCandidate (m : Model) (p : List (String × V)) (n : Nat) : Params :=
  let allParams := { m.params with learner := p }
  let nm := getModelName (learnerModelTypeStr p) n ""
  let nm :=
    if (assocGet allParams.preprocessing "golden_features").isSome then
      nm.addSuffix "_GoldenFeatures"
    else nm
  let nm :=
    if dropFeaturesNonempty allParams.preprocessing then nm.addSuffix "_SelectedFeatures"
    else nm
  { allParams with name := nm, status := "initialized", finalLoss := none, trainTime := none }

/-- Build step for hill climbing: `None` neighbors are skipped
(`if p is not None`). -/
def hillBuild (a : Model × Option (List (String × V))) (n : Nat) : Option Params :=
  a.2.map (fun p => hillCandidate a.1 p n)

/-- Embeds `MljarTuner.get_hill_climbing_params` with the ledger threaded;
ordinals start at `max(existing ordinal indices) + 1` offset by
`len(generated_params)`. -/
def hillClimbingParams (cfg : Config) (env : Env) (st : List String) (models : List Model) :
    List String × List Params :=
  dedupFold hillBuild (modelMaxIndex models + 1) (hillAttempts cfg env models) st []

/-- The families eligible for golden features. -/
def goldenFamilies : List String := ["Xgboost", "LightGBM", "CatBoost"]

/-- Per eligible family the single best-by-loss model
(`range(min(1, len(models)))`). -/
def goldenAttempts (models : List Model) : List Model :=
  ((uniqueTypes models).filter (fun t => goldenFamilies.contains t)).filterMap
    (fun t => (modelsOfType models t).head?)

/-- One golden-features candidate: the parent's configuration with a
golden-feature request attached, `_GoldenFeatures` appended to the name
and any cached architecture artifact stripped. -/
def goldenCandidate (cfg : Config) (resultsPath : String) (m : Model) : Params :=
  let params := m.params
  let params :=
    { params with
      preprocessing :=
        assocSet params.preprocessing "golden_features" (V.gfMark resultsPath cfg.mlTask),
      name := params.name.addSuffix "_GoldenFeatures",
      status := "initialized", finalLoss := none, trainTime := none }
  { params with learner := assocDel params.learner "model_architecture_json" }

/-- Embeds `MljarTuner.get_golden_features_params` with the ledger threaded. -/
def goldenFeaturesParams (cfg : Config) (st : List String) (models : List Model)
    (resultsPath : String) : List String × List Params :=
  dedupFold (fun m _ => some (goldenCandidate cfg resultsPath m)) 0 (goldenAttempts models) st []

/-- Embeds `df_models.sort_values(by="score").iloc[0]["model"]`: a minimum-loss
model of the whole current list (the first one under the stable sort). -/
def bestByLoss (ms : List Model) : Option Model := (sortedByLoss ms).head?

/-- The single `insert_random_feature` candidate: the global best model
cloned, `add_random_feature` flagged, `_RandomFeature` appended, explain
level forced to 1 and any cached architecture artifact stripped. -/
def irfCandidate (m : Model) : Params :=
  let params := m.params
  let params :=
    { params with
      preprocessing := assocSet params.preprocessing "add_random_feature" (V.boolV true),
      name := params.name.addSuffix "_RandomFeature",
      status := "initialized", finalLoss := none, trainTime := none,
      explainLevel := 1 }
  { params with learner := assocDel params.learner "model_architecture_json" }

/-- Embeds `MljarTuner.get_params_to_insert_random_feature` with the ledger
threaded: the `none` result embeds the Python `None` return.  On an empty
model list the source raises `IndexError` at `iloc[0]` (caller contract,
spec section 7); that branch is embedded as the `none` sentinel and no
theorem relies on it. -/
def insertRandomFeatureParams (st : List String) (models : List Model) :
    List String × Option (List Params) :=
  match bestByLoss models with
  | none => (st, none)
  | some m =>
    let p := irfCandidate m
    let key := getParamsKey p
    if st.contains key then (st, none) else (st ++ [key], some [p])

/-- The families eligible for feature-selection variants. -/
def fsFamilies : List String :=
  ["Xgboost", "LightGBM", "CatBoost", "Neural Network", "Random Forest", "Extra Trees"]

/-- Per eligible family the single best-by-loss model. -/
def fsAttempts (models : List Model) : List Model :=
  ((uniqueTypes models).filter (fun t => fsFamilies.contains t)).filterMap
    (fun t => (modelsOfType models t).head?)

/-- One feature-selection candidate: the parent's configuration with the
manifest's drop list attached, `_SelectedFeatures` appended and any
cached architecture artifact stripped. -/
def fsCandidate (dropFeatures : List String) (m : Model) : Params :=
  let params := m.params
  let params :=
    { params with
      preprocessing := assocSet params.preprocessing "drop_features" (V.strList dropFeatures),
      name := params.name.addSuffix "_SelectedFeatures",
      status := "initialized", finalLoss := none, trainTime := none }
  { params with learner := assocDel params.learner "model_architecture_json" }

/-- Embeds `MljarTuner.get_features_selection_params` with the ledger threaded:
`none` embeds the Python `None` returned when the manifest file is
absent or lists at most one feature. -/
def featuresSelectionParams (env : Env) (st : List String) (models : List Model)
    (resultsPath : String) : List String × Option (List Params) :=
  match env.dropFeaturesFile (resultsPath ++ "/drop_features.json") with
  | none => (st, none)
  | some dropFeatures =>
    if dropFeatures.length ≤ 1 then (st, none)
    else
      let r := dedupFold (fun m _ => some (fsCandidate dropFeatures m)) 0 (fsAttempts models) st []
      (r.1, some r.2)

/-- The families reused as stacked models. -/
def stackedFamilies : List String := ["Xgboost", "LightGBM", "CatBoost"]

/-- Embeds `added_columns = []` in `get_params_stack_models`; nothing is ever
appended to it in the source. -/
def stackAddedColumns : List String := []

/-- Embeds `params["preprocessing"]["target_preprocessing"]` as a list of
transform names (the only shape the source ever stores there). -/
def targetPreprocessingList (pre : List (String × V)) : List String :=
  match assocGet pre "target_preprocessing" with
  | some (V.strList xs) => xs
  | _ => []

/-- Embeds `params["preprocessing"]["columns_preprocessing"]` as a dict from
column name to transform list. -/
def columnsPreprocessingDict (pre : List (String × V)) : List (String × List String) :=
  match assocGet pre "columns_preprocessing" with
  | some (V.str _) => []
  | some (V.strListDict d) => d
  | _ => []

/-- The stacked-dataset path rewrite
`params["validation_strategy"]["X_path"].replace("X.parquet", "X_stacked.parquet")`.
When `X_path` is absent the source raises `KeyError` (never for
driver-built params); that branch leaves the dict unchanged. -/
def xPathRewrite (vs : List (String × V)) : List (String × V) :=
  match assocGet vs "X_path" with
  | some (V.str s) => assocSet vs "X_path" (V.str (strReplace s "X.parquet" "X_stacked.parquet"))
  | _ => vs

/-- One stacked candidate from `get_params_stack_models`: deep copy of
the stacked model's params, feature-matrix path rewritten, `_Stacked`
appended, `is_stacked` set, architecture artifact stripped, and — for
regression with a scaled target — the scaling propagated over the (empty)
list of newly added stacked columns. -/
def stackCandidate (cfg : Config) (m : Model) : Params :=
  let params := m.params
  let params := { params with validationStrategy := xPathRewrite params.validationStrategy }
  let params :=
    { params with
      name := params.name.addSuffix "_Stacked", isStacked := true,
      status := "initialized", finalLoss := none, trainTime := none }
  let params := { params with learner := assocDel params.learner "model_architecture_json" }
  if cfg.mlTask == REGRESSION then
    let tp := targetPreprocessingList params.preprocessing
    let scale : Option String :=
      if tp.contains "scale_log_and_normal" then some "scale_log_and_normal"
      else if tp.contains "scale_normal" then some "scale_normal"
      else none
    match scale with
    | none => params
    | some sc =>
      { params with
        preprocessing :=
          stackAddedColumns.foldl
            (fun pre col =>
              assocSet pre "columns_preprocessing"
                (V.strListDict (assocSetSL (columnsPreprocessingDict pre) col [sc])))
            params.preprocessing }
  else params

/-- Embeds `MljarTuner.get_params_stack_models`: empty for a missing or empty
stacked-model list, otherwise one candidate per stacked model of an
eligible boosted-tree family.  No fingerprint check appears in this
stage in the source. -/
def stackParams (cfg : Config) (stackedModels : Option (List Model)) : List Params :=
  match stackedModels with
  | none => []
  | some ms =>
    if ms.isEmpty then []
    else (ms.filter (fun m => stackedFamilies.contains m.mtype)).map (stackCandidate cfg)

/-- The fixed `ensemble` descriptor dict.  The source dict carries only
the keys model_type / is_stacked / name / status / final_loss /
train_time; the remaining structure fields are inert placeholders for
keys the dict does not have. -/
def ensembleDescriptor : Params :=
  { name := Name.plain "Ensemble", status := "initialized", finalLoss := none, trainTime := none,
    isStacked := false, modelType := some "ensemble", explainLevel := 0, mlTask := "",
    additional := [], preprocessing := [], validationStrategy := [], learner := [] }

/-- The fixed `ensemble_stacked` descriptor dict. -/
def ensembleStackedDescriptor : Params :=
  { name := Name.plain "Ensemble_Stacked", status := "initialized", finalLoss := none,
    trainTime := none, isStacked := true, modelType := some "ensemble", explainLevel := 0,
    mlTask := "", additional := [], preprocessing := [], validationStrategy := [], learner := [] }

/-- Embeds `MljarTuner.generate_params`: the stage dispatcher, with the dedup
ledger threaded as explicit state.  `some` wraps a returned candidate
list; `none` embeds a Python `None` return (the "stage skipped" sentinel
of `insert_random_feature` / `features_selection`). -/
def generate (cfg : Config) (env : Env) (st : List String) (step : String)
    (models : List Model) (resultsPath : String) (stackedModels : Option (List Model)) :
    List String × Option (List Params) :=
  let modelsCnt := models.length
  if step == "simple_algorithms" then
    let r := simpleAlgorithmsParams cfg env st
    (r.1, some r.2)
  else if step == "default_algorithms" then
    let r := defaultParams cfg env modelsCnt st
    (r.1, some r.2)
  else if step == "not_so_random" then
    let r := notSoRandomParams cfg env modelsCnt st
    (r.1, some r.2)
  else if step == "golden_features" then
    let r := goldenFeaturesParams cfg st models resultsPath
    (r.1, some r.2)
  else if step == "insert_random_feature" then
    insertRandomFeatureParams st models
  else if step == "features_selection" then
    featuresSelectionParams env st models resultsPath
  else if strContains step "hill_climbing" then
    let r := hillClimbingParams cfg env st models
    (r.1, some r.2)
  else if step == "ensemble" then
    (st, some [ensembleDescriptor])
  else if step == "stack" then
    (st, some (stackParams cfg stackedModels))
  else if step == "ensemble_stacked" then
    if models.any (fun m => m.stackedFlag) then (st, some [ensembleStackedDescriptor])
    else (st, some [])
  else (st, some [])

/-! ### Ledger discipline of the shared generation loop -/

/-- The ledger/acceptance postcondition of one stage call: the outgoing
ledger extends the incoming one by exactly the fingerprints of the
returned candidates, those fingerprints are pairwise distinct, and none
of them was already present — i.e. a candidate is inserted only if its
fingerprint was absent, and is then recorded.  A `none` (stage-skipped)
result leaves the ledger unchanged. -/
def LedgerOK (st : List String) (r : List String × Option (List Params)) : Prop :=
  match r.2 with
  | none => r.1 = st
  | some ps =>
    r.1 = st ++ ps.map getParamsKey ∧ (ps.map getParamsKey).Nodup ∧
      ∀ k ∈ ps.map getParamsKey, k ∉ st

theorem contains_eq_mem (l : List String) (a : String) : l.contains a = true ↔ a ∈ l := by
  simp [List.contains]

theorem dedupFold_spec {α : Type} (b : α → Nat → Option Params) (init : Nat)
    (l : List α) (st : List String) (acc : List Params) :
    ∃ ps : List Params,
      dedupFold b init l st acc = (st ++ ps.map getParamsKey, acc ++ ps) ∧
      (ps.map getParamsKey).Nodup ∧
      ∀ k ∈ ps.map getParamsKey, k ∉ st := by
  induction l generalizing st acc with
  | nil => exact ⟨[], by simp [dedupFold], List.nodup_nil, by simp⟩
  | cons a rest ih =>
    cases hb : b a (init + acc.length) with
    | none =>
      obtain ⟨ps, heq, hnd, hni⟩ := ih st acc
      exact ⟨ps, by simp [dedupFold, hb, heq], hnd, hni⟩
    | some p =>
      by_cases hk : getParamsKey p ∈ st
      · obtain ⟨ps, heq, hnd, hni⟩ := ih st acc
        exact ⟨ps, by simp [dedupFold, hb, acceptStep, hk, heq], hnd, hni⟩
      · obtain ⟨ps, heq, hnd, hni⟩ := ih (st ++ [getParamsKey p]) (acc ++ [p])
        refine ⟨p :: ps, ?_, ?_, ?_⟩
        · simpa [dedupFold, hb, acceptStep, hk] using heq
        · refine List.nodup_cons.mpr ⟨fun hmem => ?_, hnd⟩
          exact hni _ hmem (by simp)
        · intro k hk'
          rcases List.mem_cons.mp hk' with h | h
          · subst h
            exact hk
          · intro hmem
            exact hni _ h (by simp [hmem])

theorem dedupFold_mem {α : Type} (b : α → Nat → Option Params) (init : Nat)
    (l : List α) (st : List String) (acc : List Params) :
    ∀ p ∈ (dedupFold b init l st acc).2, p ∈ acc ∨ ∃ a ∈ l, ∃ n, b a n = some p := by
  induction l generalizing st acc with
  | nil => intro p hp; exact Or.inl (by simpa [dedupFold] using hp)
  | cons a rest ih =>
    intro p hp
    cases hb : b a (init + acc.length) with
    | none =>
      rcases ih st acc p (by simpa [dedupFold, hb] using hp) with h | ⟨a', ha', n, hn⟩
      · exact Or.inl h
      · exact Or.inr ⟨a', by simp [ha'], n, hn⟩
    | some q =>
      by_cases hk : getParamsKey q ∈ st
      · rcases ih st acc p (by simpa [dedupFold, hb, acceptStep, hk] using hp) with h | ⟨a', ha', n, hn⟩
        · exact Or.inl h
        · exact Or.inr ⟨a', by simp [ha'], n, hn⟩
      · rcases ih (st ++ [getParamsKey q]) (acc ++ [q]) p
          (by simpa [dedupFold, hb, acceptStep, hk] using hp) with h | ⟨a', ha', n, hn⟩
        · rcases List.mem_append.mp h with h' | h'
          · exact Or.inl h'
          · exact Or.inr ⟨a, by simp, init + acc.length, by simpa [List.mem_singleton.mp h'] using hb⟩
        · exact Or.inr ⟨a', by simp [ha'], n, hn⟩

theorem dedupFold_idx {α : Type} (b : α → Nat → Option Params) (init : Nat)
    (hb : ∀ a n p, b a n = some p → p.name.idx? = some n) (l : List α)
    (st : List String) (acc : List Params) :
    ∀ j p, ((dedupFold b init l st acc).2)[acc.length + j]? = some p →
      p.name.idx? = some (init + acc.length + j) := by
  induction l generalizing st acc with
  | nil =>
    intro j p hp
    rw [show dedupFold b init ([] : List α) st acc = (st, acc) from rfl] at hp
    exact absurd hp (by simp [List.getElem?_eq_none (by omega : acc.length ≤ acc.length + j)])
  | cons a rest ih =>
    intro j p hp
    cases hb' : b a (init + acc.length) with
    | none =>
      exact ih st acc j p (by simpa [dedupFold, hb'] using hp)
    | some q =>
      by_cases hk : getParamsKey q ∈ st
      · exact ih st acc j p (by simpa [dedupFold, hb', acceptStep, hk] using hp)
      · have hp' : ((dedupFold b init rest (st ++ [getParamsKey q]) (acc ++ [q])).2)[acc.length + j]? = some p := by
          simpa [dedupFold, hb', acceptStep, hk] using hp
        cases j with
        | zero =>
          obtain ⟨ps, heq, -, -⟩ := dedupFold_spec b init rest (st ++ [getParamsKey q]) (acc ++ [q])
          rw [heq] at hp'
          have hgot : ((acc ++ [q]) ++ ps)[acc.length]? = some q := by
            rw [List.append_assoc, List.getElem?_append_right (le_refl acc.length)]
            simp
          rw [show acc.length + 0 = acc.length from rfl] at hp'
          rw [hp'] at hgot
          have hqp : q = p := (Option.some_inj.mp hgot).symm
          subst hqp
          simpa using hb a (init + acc.length) q hb'
        | succ j' =>
          have harith : (acc ++ [q]).length + j' = acc.length + (j' + 1) := by
            simp
            omega
          have h1 : ((dedupFold b init rest (st ++ [getParamsKey q]) (acc ++ [q])).2)[(acc ++ [q]).length + j']? = some p := by
            rw [harith]
            exact hp'
          have h2 := ih (st ++ [getParamsKey q]) (acc ++ [q]) j' p h1
          have harith2 : init + (acc ++ [q]).length + j' = init + acc.length + (j' + 1) := by
            simp
            omega
          rw [harith2] at h2
          exact h2

theorem dedupFold_ne_nil {α : Type} (f : α → Params) (init : Nat) (l : List α)
    (st : List String) (acc : List Params)
    (h : (∃ a ∈ l, getParamsKey (f a) ∉ st) ∨ acc ≠ []) :
    (dedupFold (fun a _ => some (f a)) init l st acc).2 ≠ [] := by
  induction l generalizing st acc with
  | nil =>
    rcases h with ⟨a, ha, -⟩ | h
    · exact absurd ha (List.not_mem_nil a)
    · simpa [dedupFold] using h
  | cons a rest ih =>
    by_cases hk : getParamsKey (f a) ∈ st
    · have : (∃ a' ∈ rest, getParamsKey (f a') ∉ st) ∨ acc ≠ [] := by
        rcases h with ⟨a', ha', hni⟩ | h
        · rcases List.mem_cons.mp ha' with h' | h'
          · exact absurd hk (h' ▸ hni)
          · exact Or.inl ⟨a', h', hni⟩
        · exact Or.inr h
      simpa [dedupFold, acceptStep, hk] using ih st acc this
    · have : (∃ a' ∈ rest, getParamsKey (f a') ∉ st ++ [getParamsKey (f a)]) ∨ (acc ++ [f a]) ≠ [] :=
        Or.inr (by simp)
      simpa [dedupFold, acceptStep, hk] using ih (st ++ [getParamsKey (f a)]) (acc ++ [f a]) this

/-! ### Sorting and membership helper lemmas -/

theorem mem_insertSorted {α : Type} (le : α → α → Bool) (a x : α) (l : List α) :
    x ∈ insertSorted le a l ↔ x = a ∨ x ∈ l := by
  induction l with
  | nil => simp [insertSorted]
  | cons b bs ih =>
    by_cases h : le a b = true
    · rw [show insertSorted le a (b :: bs) = a :: b :: bs from by simp [insertSorted, h]]
      simp [List.mem_cons]
    · rw [show insertSorted le a (b :: bs) = b :: insertSorted le a bs from by
        simp [insertSorted, h]]
      simp only [List.mem_cons, ih]
      tauto

theorem mem_isortBy {α : Type} (le : α → α → Bool) (x : α) (l : List α) :
    x ∈ isortBy le l ↔ x ∈ l := by
  induction l with
  | nil => simp [isortBy]
  | cons a as ih => simp [isortBy, mem_insertSorted, ih, List.mem_cons]

theorem length_insertSorted {α : Type} (le : α → α → Bool) (a : α) (l : List α) :
    (insertSorted le a l).length = l.length + 1 := by
  induction l with
  | nil => rfl
  | cons b bs ih =>
    by_cases h : le a b = true
    · simp [insertSorted, h]
    · simp [insertSorted, h, ih]

theorem length_isortBy {α : Type} (le : α → α → Bool) (l : List α) :
    (isortBy le l).length = l.length := by
  induction l with
  | nil => rfl
  | cons a as ih => simp [isortBy, length_insertSorted, ih]

theorem head_insertSorted {α : Type} (le : α → α → Bool) (a : α) (l : List α) :
    (insertSorted le a l).head? =
      some (match l.head? with
            | none => a
            | some b => if le a b then a else b) := by
  cases l with
  | nil => rfl
  | cons b bs =>
    by_cases h : le a b = true
    · simp [insertSorted, h]
    · simp [insertSorted, h]

theorem mem_dedupStr (x : String) (l : List String) : x ∈ dedupStr l ↔ x ∈ l := by
  induction l with
  | nil => simp [dedupStr]
  | cons a as ih =>
    by_cases h : (dedupStr as).contains a = true
    · have ha : a ∈ dedupStr as := (contains_eq_mem _ _).mp h
      show x ∈ (if (dedupStr as).contains a = true then dedupStr as else a :: dedupStr as) ↔ _
      rw [if_pos h]
      constructor
      · intro hx; exact List.mem_cons.mpr (Or.inr (ih.mp hx))
      · intro hx
        rcases List.mem_cons.mp hx with rfl | hx
        · exact ha
        · exact ih.mpr hx
    · show x ∈ (if (dedupStr as).contains a = true then dedupStr as else a :: dedupStr as) ↔ _
      rw [if_neg h]
      simp only [List.mem_cons, ih]

/-- Lemma: `bestByLoss` of a nonempty model list is a member attaining the
minimum loss. -/
theorem bestByLoss_min (l : List Model) (h : l ≠ []) :
    ∃ m, bestByLoss l = some m ∧ m ∈ l ∧ ∀ x ∈ l, m.loss ≤ x.loss := by
  induction l with
  | nil => exact absurd rfl h
  | cons a as ih =>
    cases as with
    | nil =>
      refine ⟨a, rfl, by simp, ?_⟩
      intro x hx
      rw [List.mem_singleton.mp hx]
    | cons b bs =>
      obtain ⟨m, hm, hmem, hmin⟩ := ih (by simp)
      have hstep : bestByLoss (a :: b :: bs) =
          (insertSorted (fun x y => decide (x.loss ≤ y.loss)) a (sortedByLoss (b :: bs))).head? := rfl
      rw [head_insertSorted] at hstep
      have hm' : (sortedByLoss (b :: bs)).head? = some m := hm
      rw [hm'] at hstep
      by_cases hle : a.loss ≤ m.loss
      · refine ⟨a, by simpa [hle] using hstep, by simp, ?_⟩
        intro x hx
        rcases List.mem_cons.mp hx with rfl | hx
        · exact le_refl _
        · exact le_trans hle (hmin x hx)
      · refine ⟨m, by simpa [hle] using hstep, List.mem_cons.mpr (Or.inr hmem), ?_⟩
        intro x hx
        rcases List.mem_cons.mp hx with rfl | hx
        · omega
        · exact hmin x hx

/-! ### Association-list lemmas -/

theorem assocGet_assocSet_ne (l : List (String × V)) (k' : String) (v : V) (k : String)
    (h : k' ≠ k) : assocGet (assocSet l k' v) k = assocGet l k := by
  induction l with
  | nil => simp [assocSet, assocGet, h]
  | cons kv rest ih =>
    by_cases hk : kv.1 == k'
    · have : kv.1 = k' := by simpa using hk
      simp [assocSet, assocGet, hk, this, h]
    · by_cases hkk : kv.1 == k
      · simp [assocSet, assocGet, hk, hkk]
      · simp [assocSet, assocGet, hk, hkk, ih]

theorem keys_assocSet (l : List (String × V)) (k' : String) (v : V) (k : String) :
    k ∈ (assocSet l k' v).map Prod.fst → k ∈ l.map Prod.fst ∨ k = k' := by
  induction l with
  | nil =>
    intro h
    simp only [assocSet, List.map_cons, List.map_nil, List.mem_singleton] at h
    exact Or.inr h
  | cons kv rest ih =>
    intro h
    by_cases hk : (kv.1 == k') = true
    · rw [show assocSet (kv :: rest) k' v = (k', v) :: rest from by simp [assocSet, hk]] at h
      rcases List.mem_cons.mp h with h | h
      · exact Or.inr h
      · exact Or.inl (List.mem_cons.mpr (Or.inr h))
    · rw [show assocSet (kv :: rest) k' v = kv :: assocSet rest k' v from by
        simp [assocSet, hk]] at h
      rcases List.mem_cons.mp h with h | h
      · exact Or.inl (List.mem_cons.mpr (Or.inl h))
      · rcases ih h with hx | hx
        · exact Or.inl (List.mem_cons.mpr (Or.inr hx))
        · exact Or.inr hx

theorem assocGet_foldl_assocSet (mp : List (String × V)) (l : List (String × V)) (k : String)
    (h : k ∉ mp.map Prod.fst) :
    assocGet (mp.foldl (fun acc kv => assocSet acc kv.1 kv.2) l) k = assocGet l k := by
  induction mp generalizing l with
  | nil => rfl
  | cons kv rest ih =>
    have h1 : k ∉ rest.map Prod.fst := fun hmem => h (by simp [hmem])
    have h2 : kv.1 ≠ k := fun he => h (by simp [he])
    calc assocGet ((kv :: rest).foldl (fun acc kv' => assocSet acc kv'.1 kv'.2) l) k
        = assocGet (rest.foldl (fun acc kv' => assocSet acc kv'.1 kv'.2) (assocSet l kv.1 kv.2)) k := rfl
      _ = assocGet (assocSet l kv.1 kv.2) k := ih _ h1
      _ = assocGet l k := assocGet_assocSet_ne _ _ _ _ h2

/-! ### Fingerprint lemmas -/

theorem keyFold_eq_filter (init : String) (l : List (String × V)) :
    keyFold init l = keyFold init (l.filter (fun kv => !(kv.1 == "seed"))) := by
  induction l generalizing init with
  | nil => rfl
  | cons kv rest ih =>
    by_cases h : (kv.1 == "seed") = true
    · have heq : kv.1 = "seed" := by simpa using h
      calc keyFold init (kv :: rest) = keyFold init rest := by simp [keyFold, heq]
        _ = keyFold init (rest.filter (fun kv' => !(kv'.1 == "seed"))) := ih init
        _ = keyFold init ((kv :: rest).filter (fun kv' => !(kv'.1 == "seed"))) := by
            rw [List.filter_cons]
            simp [h]
    · have hne : ¬ kv.1 = "seed" := by simpa using h
      calc keyFold init (kv :: rest)
          = keyFold (init ++ "_" ++ kv.1 ++ "_" ++ kv.2.render) rest := by simp [keyFold, hne]
        _ = keyFold (init ++ "_" ++ kv.1 ++ "_" ++ kv.2.render)
              (rest.filter (fun kv' => !(kv'.1 == "seed"))) := ih _
        _ = keyFold init ((kv :: rest).filter (fun kv' => !(kv'.1 == "seed"))) := by
            rw [List.filter_cons]
            simp [h, keyFold, hne]

/-! ### Stage-level ledger lemmas -/

theorem ledgerOK_of_fold {α : Type} (b : α → Nat → Option Params) (init : Nat)
    (l : List α) (st : List String) :
    LedgerOK st ((dedupFold b init l st []).1, some (dedupFold b init l st []).2) := by
  obtain ⟨ps, heq, hnd, hni⟩ := dedupFold_spec b init l st []
  rw [heq]
  exact ⟨by simp, by simpa using hnd, by simpa using hni⟩

theorem irf_ledgerOK (st : List String) (models : List Model) :
    LedgerOK st (insertRandomFeatureParams st models) := by
  unfold insertRandomFeatureParams
  cases bestByLoss models with
  | none => exact rfl
  | some m =>
    dsimp only
    by_cases hk : st.contains (getParamsKey (irfCandidate m)) = true
    · rw [if_pos hk]
      exact rfl
    · rw [if_neg hk]
      have hni : getParamsKey (irfCandidate m) ∉ st :=
        fun hmem => hk ((contains_eq_mem _ _).mpr hmem)
      refine ⟨by simp, by simp, ?_⟩
      intro k hkm
      have hkeq : k = getParamsKey (irfCandidate m) := by simpa using hkm
      subst hkeq
      exact hni

theorem fs_ledgerOK (env : Env) (st : List String) (models : List Model) (rp : String) :
    LedgerOK st (featuresSelectionParams env st models rp) := by
  unfold featuresSelectionParams
  cases env.dropFeaturesFile (rp ++ "/drop_features.json") with
  | none => exact rfl
  | some df =>
    dsimp only
    by_cases hlen : df.length ≤ 1
    · rw [if_pos hlen]
      exact rfl
    · rw [if_neg hlen]
      exact ledgerOK_of_fold _ _ _ _

/-! ### Concrete fixtures used by witnesses and counterexamples -/

/-- Registry entry used by concrete fixtures. -/
def wInfo : AlgoInfo :=
  { shortName := "Xgboost", defaultParams := [("n_estimators", V.int 100)],
    paramSpace := [("space", V.null)], requiredPreprocessing := ["missing_values_inputation"],
    additional := [], maxRows := none, maxCols := none }

/-- Concrete environment: one boosted-tree family plus a row-limited
LightGBM entry; all collaborators deterministic constants. -/
def wEnv : Env :=
  { registry := fun _ mt =>
      if mt == "LightGBM" then
        { wInfo with shortName := "LightGBM", maxRows := some 1000 }
      else wInfo,
    randomParams := fun _ s => some [("eta", V.int s)],
    preprocessingGet := fun _ _ _ => [("target_preprocessing", V.strList ["scale_normal"])],
    hillClimbing := fun _ _ _ =>
      [some [("model_type", V.str "Xgboost"), ("max_depth", V.int 4)],
       some [("model_type", V.str "Xgboost"), ("max_depth", V.int 5)]],
    dropFeaturesFile := fun _ => some ["f1", "f2"] }

/-- Concrete configuration: budget 5, depth 3, golden features on,
feature selection off, ensembling on, stacking off, 5000 rows. -/
def wCfg : Config :=
  { startRandomModels := 5, hillClimbingSteps := 3, topModelsToImprove := 3,
    algorithms := ["Xgboost", "LightGBM"], mlTask := "binary_classification",
    validationStrategy := [("X_path", V.str "/tmp/X.parquet")], explainLevel := 2,
    dataInfo := { rows := 5000, cols := 5, numClass := none },
    goldenFeatures := true, featuresSelection := false, trainEnsemble := true,
    stackModels := false, seed := 1 }

/-- A concrete trained Xgboost model. -/
def wModel : Model :=
  { params :=
      { name := Name.indexed 1 "Xgboost", status := "trained", finalLoss := some 5,
        trainTime := some 1, isStacked := false, modelType := none, explainLevel := 2,
        mlTask := "binary_classification", additional := [],
        preprocessing := [("target_preprocessing", V.strList ["scale_normal"])],
        validationStrategy := [("X_path", V.str "/tmp/X.parquet")],
        learner := [("model_type", V.str "Xgboost"),
                    ("ml_task", V.str "binary_classification"),
                    ("seed", V.int 1), ("eta", V.int 2)] },
    loss := 5, mtype := "Xgboost", stackedFlag := false }

/-- Variant of `wModel` with a different learner seed only. -/
def wModelSeed2 : Model :=
  { wModel with params :=
      { wModel.params with
        learner := [("model_type", V.str "Xgboost"),
                    ("ml_task", V.str "binary_classification"),
                    ("seed", V.int 2), ("eta", V.int 2)] } }

/-! ### C2 — stage plan composition -/

/-- C2: `steps` is, as a pure function of the configuration flags, the
list `[simple_algorithms, default_algorithms]` followed in order by
`not_so_random` iff the random-model budget exceeds 1, `golden_features`
iff enabled, `insert_random_feature` then `features_selection` iff
feature selection is enabled, `hill_climbing_1 .. hill_climbing_N` for
the configured depth, `ensemble` iff ensembling is enabled, and `stack`
followed by `ensemble_stacked` (the latter only when ensembling is also
enabled) iff stacking is enabled; in particular, with depth 3, golden
features on, feature selection off, ensembling on, stacking off, the
plan is as the spec displays it. -/
theorem steps_stage_plan (cfg : Config) :
    steps cfg =
      ["simple_algorithms", "default_algorithms"] ++
        (if cfg.startRandomModels > 1 then ["not_so_random"] else []) ++
        (if cfg.goldenFeatures then ["golden_features"] else []) ++
        (if cfg.featuresSelection then ["insert_random_feature", "features_selection"] else []) ++
        (List.range cfg.hillClimbingSteps).map (fun i => "hill_climbing_" ++ toString (i + 1)) ++
        (if cfg.trainEnsemble then ["ensemble"] else []) ++
        (if cfg.stackModels then
          "stack" :: (if cfg.trainEnsemble then ["ensemble_stacked"] else [])
         else []) ∧
    (cfg.hillClimbingSteps = 3 → cfg.goldenFeatures = true → cfg.featuresSelection = false →
      cfg.trainEnsemble = true → cfg.stackModels = false →
      steps cfg =
        ["simple_algorithms", "default_algorithms"] ++
          (if cfg.startRandomModels > 1 then ["not_so_random"] else []) ++
          ["golden_features", "hill_climbing_1", "hill_climbing_2", "hill_climbing_3",
           "ensemble"]) := by
  constructor
  · unfold steps
    split_ifs <;> simp
  · intro h1 h2 h3 h4 h5
    unfold steps
    rw [h1, h2, h3, h4, h5]
    by_cases hb : cfg.startRandomModels > 1 <;> simp [hb] <;> rfl

/-- Witness for C2 at the concrete configuration `wCfg`. -/
theorem steps_stage_plan_witness :
    steps wCfg =
      ["simple_algorithms", "default_algorithms", "not_so_random", "golden_features",
       "hill_climbing_1", "hill_climbing_2", "hill_climbing_3", "ensemble"] := by
  have h := (steps_stage_plan wCfg).2 rfl rfl rfl rfl rfl
  simpa [wCfg] using h

/-! ### C4 — ensemble_stacked gating -/

/-- C4: `generate` on stage `ensemble_stacked` returns the empty list
when no current model is flagged `is_stacked`; when at least one is, it
returns exactly the one descriptor, whose `model_type` is the ensemble
sentinel and whose `is_stacked` flag is true.  The ledger is untouched
either way. -/
theorem ensemble_stacked_gating (cfg : Config) (env : Env) (st : List String)
    (models : List Model) (rp : String) (sm : Option (List Model)) :
    ((∀ m ∈ models, m.stackedFlag = false) →
      generate cfg env st "ensemble_stacked" models rp sm = (st, some [])) ∧
    ((∃ m ∈ models, m.stackedFlag = true) →
      generate cfg env st "ensemble_stacked" models rp sm = (st, some [ensembleStackedDescriptor]) ∧
        ensembleStackedDescriptor.modelType = some "ensemble" ∧
        ensembleStackedDescriptor.isStacked = true) := by
  have hred : generate cfg env st "ensemble_stacked" models rp sm =
      (if models.any (fun m => m.stackedFlag) then (st, some [ensembleStackedDescriptor])
       else (st, some [])) := rfl
  constructor
  · intro h
    have hany : models.any (fun m => m.stackedFlag) = false := by
      rw [List.any_eq_false]
      intro m hm
      simp [h m hm]
    rw [hred, hany]
    rfl
  · intro h
    have hany : models.any (fun m => m.stackedFlag) = true := by
      rw [List.any_eq_true]
      obtain ⟨m, hm, hs⟩ := h
      exact ⟨m, hm, by simp [hs]⟩
    rw [hred, hany]
    exact ⟨rfl, rfl, rfl⟩

/-- Witness for C4: both gating directions at concrete inputs. -/
theorem ensemble_stacked_gating_witness :
    generate wCfg wEnv [] "ensemble_stacked" [wModel] "/res" none = ([], some []) ∧
    generate wCfg wEnv [] "ensemble_stacked" [{ wModel with stackedFlag := true }] "/res" none =
      ([], some [ensembleStackedDescriptor]) := by
  constructor
  · exact (ensemble_stacked_gating wCfg wEnv [] [wModel] "/res" none).1
      (by intro m hm; rw [List.mem_singleton.mp hm]; rfl)
  · exact ((ensemble_stacked_gating wCfg wEnv [] [{ wModel with stackedFlag := true }] "/res"
      none).2 ⟨{ wModel with stackedFlag := true }, by simp, rfl⟩).1

/-! ### C10 — stack stage preserves the parent preprocessing -/

/-- C10: every candidate returned by the stack stage is the transform of
a parent stacked model, and its `preprocessing` equals the parent's
(deep-copied) `preprocessing` unchanged: the regression target-scaling
branch iterates over the always-empty list of newly added stacked
columns, so `columns_preprocessing` is never modified. -/
theorem stack_preserves_preprocessing (cfg : Config) (ms : List Model) :
    stackParams cfg (some ms) =
      (ms.filter (fun m => stackedFamilies.contains m.mtype)).map (stackCandidate cfg) ∧
    ∀ m ∈ ms, (stackCandidate cfg m).preprocessing = m.params.preprocessing := by
  constructor
  · cases ms with
    | nil => rfl
    | cons a as => simp [stackParams]
  · intro m _
    unfold stackCandidate
    by_cases ht : (cfg.mlTask == REGRESSION) = true
    · rw [if_pos ht]
      dsimp only
      split
      · rfl
      · simp [stackAddedColumns]
    · rw [if_neg ht]

/-- Witness for C10 at a concrete regression configuration with a
scaled target, where the scaling branch is actually taken. -/
theorem stack_preserves_preprocessing_witness :
    (stackCandidate { wCfg with mlTask := REGRESSION } wModel).preprocessing =
      wModel.params.preprocessing ∧
    stackParams { wCfg with mlTask := REGRESSION } (some [wModel]) =
      [stackCandidate { wCfg with mlTask := REGRESSION } wModel] := by
  have h := stack_preserves_preprocessing { wCfg with mlTask := REGRESSION } [wModel]
  refine ⟨h.2 wModel (by simp), ?_⟩
  rw [h.1]
  rfl

/-! ### C5 — determinism of generate -/

/-- C5 counterexample: `generate` is not referentially transparent in its
arguments alone — calling `default_algorithms` twice in succession on the
same controller (the second call seeing the ledger the first call left
behind) returns a different (empty) candidate list, because the first
call recorded the candidate fingerprints and the second call rejects
them as duplicates. -/
theorem generate_second_call_differs :
    (generate wCfg wEnv ((generate wCfg wEnv [] "default_algorithms" [] "/res" none).1)
        "default_algorithms" [] "/res" none).2 ≠
      (generate wCfg wEnv [] "default_algorithms" [] "/res" none).2 := by
  decide

/-- C5 amended: `generate` is a pure function of the configuration, the
collaborators, the dedup-ledger state and its arguments — two calls with
the same stage name, the same arguments and equal ledger states return
identical (ledger, candidate-list) results.  (A sequential second call
sees the mutated ledger and can return a different list.) -/
theorem generate_deterministic (cfg : Config) (env : Env) (st₁ st₂ : List String)
    (step : String) (models : List Model) (rp : String) (sm : Option (List Model))
    (h : st₁ = st₂) :
    generate cfg env st₁ step models rp sm = generate cfg env st₂ step models rp sm := by
  rw [h]

/-- Witness for C5's amended determinism at concrete arguments. -/
theorem generate_deterministic_witness :
    generate wCfg wEnv [] "default_algorithms" [] "/res" none =
      generate wCfg wEnv [] "default_algorithms" [] "/res" none :=
  generate_deterministic wCfg wEnv [] [] "default_algorithms" [] "/res" none rfl

/-! ### C8 — the fingerprint ignores the seed -/

/-- C8: `get_params_key` is invariant under the learner's `seed` entry:
two candidates with equal `preprocessing` and with `learner` dicts equal
after discarding `seed` entries receive the same fingerprint, and hence
a candidate differing from an already-recorded one only by seed is
rejected by the acceptance step (ledger and output unchanged). -/
theorem params_key_seed_invariant (p₁ p₂ : Params)
    (hpre : p₁.preprocessing = p₂.preprocessing)
    (hlearn : p₁.learner.filter (fun kv => !(kv.1 == "seed")) =
      p₂.learner.filter (fun kv => !(kv.1 == "seed"))) :
    getParamsKey p₁ = getParamsKey p₂ ∧
    ∀ st acc, getParamsKey p₁ ∈ st → acceptStep st acc p₂ = (st, acc) := by
  have hk : getParamsKey p₁ = getParamsKey p₂ := by
    unfold getParamsKey
    rw [hpre, keyFold_eq_filter _ p₁.learner, hlearn, ← keyFold_eq_filter]
  refine ⟨hk, ?_⟩
  intro st acc hmem
  unfold acceptStep
  rw [if_pos ((contains_eq_mem _ _).mpr (hk ▸ hmem))]

/-- Witness for C8: `wModel`'s params and the same params with seed 2
share a fingerprint, and the seed-2 variant is rejected against a ledger
holding that fingerprint. -/
theorem params_key_seed_invariant_witness :
    getParamsKey wModel.params = getParamsKey wModelSeed2.params ∧
    acceptStep [getParamsKey wModel.params] [] wModelSeed2.params =
      ([getParamsKey wModel.params], []) := by
  have h := params_key_seed_invariant wModel.params wModelSeed2.params rfl (by decide)
  exact ⟨h.1, h.2 [getParamsKey wModel.params] [] (by simp)⟩

/-! ### C9 — insert_random_feature -/

/-- C9: the `insert_random_feature` stage clones the single best-by-loss
model across all current models, sets the `add_random_feature` flag on
its preprocessing plan, appends `_RandomFeature` to its name, forces the
explain level to the minimal value 1, strips any cached architecture
artifact, and returns either that one candidate (recording its
fingerprint) or — when the fingerprint is already in the ledger — the
null sentinel rather than a list. -/
theorem insert_random_feature_spec (st : List String) (models : List Model) (m : Model)
    (hm : bestByLoss models = some m) :
    m ∈ models ∧ (∀ x ∈ models, m.loss ≤ x.loss) ∧
    irfCandidate m =
      { m.params with
        preprocessing := assocSet m.params.preprocessing "add_random_feature" (V.boolV true),
        name := m.params.name.addSuffix "_RandomFeature",
        status := "initialized", finalLoss := none, trainTime := none, explainLevel := 1,
        learner := assocDel m.params.learner "model_architecture_json" } ∧
    (getParamsKey (irfCandidate m) ∈ st → insertRandomFeatureParams st models = (st, none)) ∧
    (getParamsKey (irfCandidate m) ∉ st →
      insertRandomFeatureParams st models =
        (st ++ [getParamsKey (irfCandidate m)], some [irfCandidate m])) := by
  have hne : models ≠ [] := by
    intro h
    rw [h] at hm
    exact Option.noConfusion hm
  obtain ⟨m', hm', hmem, hmin⟩ := bestByLoss_min models hne
  rw [hm] at hm'
  have heq : m = m' := Option.some_inj.mp hm'
  subst heq
  refine ⟨hmem, hmin, rfl, ?_, ?_⟩
  · intro hin
    unfold insertRandomFeatureParams
    rw [hm]
    dsimp only
    rw [if_pos ((contains_eq_mem _ _).mpr hin)]
  · intro hout
    unfold insertRandomFeatureParams
    rw [hm]
    dsimp only
    rw [if_neg (fun hc => hout ((contains_eq_mem _ _).mp hc))]

/-- Witness for C9: a fresh ledger accepts the single probe candidate
built from the only (hence best) current model. -/
theorem insert_random_feature_spec_witness :
    insertRandomFeatureParams [] [wModel] =
      ([getParamsKey (irfCandidate wModel)], some [irfCandidate wModel]) := by
  have h := insert_random_feature_spec [] [wModel] wModel rfl
  exact h.2.2.2.2 (List.not_mem_nil _)

/-! ### C1 — ledger discipline of acceptance -/

/-- C1 counterexample: the stack stage performs no fingerprint check.
Stacking two models that differ only in their learner seed yields two
distinct accepted candidates with equal fingerprints, and records
nothing in the ledger — refuting both the pairwise-distinct-fingerprints
invariant and the claim that no stage skips the dedup key check. -/
theorem stack_skips_dedup_counterexample :
    (generate wCfg wEnv [] "stack" [] "/res" (some [wModel, wModelSeed2])).1 = [] ∧
    ((generate wCfg wEnv [] "stack" [] "/res" (some [wModel, wModelSeed2])).2.getD []).Nodup ∧
    ((generate wCfg wEnv [] "stack" [] "/res" (some [wModel, wModelSeed2])).2.getD []).length
      = 2 ∧
    ¬ (((generate wCfg wEnv [] "stack" [] "/res"
        (some [wModel, wModelSeed2])).2.getD []).map getParamsKey).Nodup := by
  decide

/-- C1 amended: every fingerprint-checked stage — `simple_algorithms`,
`default_algorithms`, `not_so_random`, `golden_features`,
`insert_random_feature`, `features_selection` and the `hill_climbing`
stages — inserts a candidate into its output only if its fingerprint is
absent from the ledger and then records it: the returned candidates
carry pairwise-distinct fingerprints, none previously present, and the
outgoing ledger is the incoming one extended by exactly those
fingerprints (so acceptance stays duplicate-free across the stages of a
run as the ledger accumulates).  The stack stage and the ensemble
descriptor stages perform no such check. -/
theorem generate_checked_stage_ledger (cfg : Config) (env : Env) (st : List String)
    (step : String) (models : List Model) (rp : String) (sm : Option (List Model))
    (hstep : step = "simple_algorithms" ∨ step = "default_algorithms" ∨
      step = "not_so_random" ∨ step = "golden_features" ∨ step = "insert_random_feature" ∨
      step = "features_selection" ∨ strContains step "hill_climbing" = true) :
    LedgerOK st (generate cfg env st step models rp sm) := by
  rcases hstep with rfl | rfl | rfl | rfl | rfl | rfl | hinf
  · exact ledgerOK_of_fold (simpleBuild cfg env) 0 (simpleAttempts cfg) st
  · exact ledgerOK_of_fold (defaultBuild cfg env) models.length (defaultAttempts cfg env) st
  · exact ledgerOK_of_fold (nsrBuild cfg env) models.length (nsrAttempts cfg env) st
  · exact ledgerOK_of_fold (fun m _ => some (goldenCandidate cfg rp m)) 0
      (goldenAttempts models) st
  · exact irf_ledgerOK st models
  · exact fs_ledgerOK env st models rp
  · have ne1 : step ≠ "simple_algorithms" := fun he => by
      rw [he] at hinf
      exact absurd hinf (by decide)
    have ne2 : step ≠ "default_algorithms" := fun he => by
      rw [he] at hinf
      exact absurd hinf (by decide)
    have ne3 : step ≠ "not_so_random" := fun he => by
      rw [he] at hinf
      exact absurd hinf (by decide)
    have ne4 : step ≠ "golden_features" := fun he => by
      rw [he] at hinf
      exact absurd hinf (by decide)
    have ne5 : step ≠ "insert_random_feature" := fun he => by
      rw [he] at hinf
      exact absurd hinf (by decide)
    have ne6 : step ≠ "features_selection" := fun he => by
      rw [he] at hinf
      exact absurd hinf (by decide)
    unfold generate
    simp only [beq_iff_eq]
    rw [if_neg ne1, if_neg ne2, if_neg ne3, if_neg ne4, if_neg ne5, if_neg ne6, if_pos hinf]
    exact ledgerOK_of_fold hillBuild (modelMaxIndex models + 1) (hillAttempts cfg env models) st

/-- Witness for C1's amended ledger discipline: the `default_algorithms`
stage at concrete inputs. -/
theorem generate_checked_stage_ledger_witness :
    LedgerOK [] (generate wCfg wEnv [] "default_algorithms" [] "/res" none) :=
  generate_checked_stage_ledger wCfg wEnv [] "default_algorithms" [] "/res" none
    (Or.inr (Or.inl rfl))

/-! ### C7 — hill-climbing ordinal prefixes -/

/-- The ordinal of a hill-climbing candidate is the ordinal it was built
at: the `_GoldenFeatures`/`_SelectedFeatures` suffixes land after the
first underscore and leave the ordinal prefix intact. -/
theorem hillCandidate_idx (m : Model) (q : List (String × V)) (n : Nat) :
    (hillCandidate m q n).name.idx? = some n := by
  have hadd : ∀ (nm : Name) (s : String), (nm.addSuffix s).idx? = nm.idx? := by
    intro nm s
    cases nm <;> rfl
  unfold hillCandidate getModelName
  dsimp only
  split
  · split
    · rfl
    · rfl
  · split
    · rfl
    · rfl

/-- C7: within one `hill_climbing` call the accepted candidates' name
ordinals are exactly `max(existing ordinal indices) + 1 + (number of
candidates already accepted this call)`: the `j`-th accepted candidate
carries ordinal `modelMaxIndex models + 1 + j`, so consecutive ordinals
are strictly increasing and start at the successor of the maximal
existing ordinal. -/
theorem hill_climbing_ordinals (cfg : Config) (env : Env) (st : List String)
    (models : List Model) :
    ∀ j p, ((hillClimbingParams cfg env st models).2)[j]? = some p →
      p.name.idx? = some (modelMaxIndex models + 1 + j) := by
  intro j p hp
  have hb : ∀ (a : Model × Option (List (String × V))) (n : Nat) (q : Params),
      hillBuild a n = some q → q.name.idx? = some n := by
    intro a n q hq
    cases ha : a.2 with
    | none => rw [show hillBuild a n = none from by simp [hillBuild, ha]] at hq; cases hq
    | some l =>
      have : q = hillCandidate a.1 l n := by
        rw [show hillBuild a n = some (hillCandidate a.1 l n) from by simp [hillBuild, ha]] at hq
        exact (Option.some_inj.mp hq).symm
      rw [this]
      exact hillCandidate_idx a.1 l n
  have h := dedupFold_idx hillBuild (modelMaxIndex models + 1) hb
    (hillAttempts cfg env models) st [] j p (by simpa using hp)
  simpa using h

/-- Witness for C7: at concrete inputs the first two accepted candidates
carry ordinals 2 and 3 (the existing model has ordinal 1). -/
theorem hill_climbing_ordinals_witness :
    (((hillClimbingParams wCfg wEnv [] [wModel]).2)[0]?).map (fun p => p.name.idx?) =
        some (some 2) ∧
    (((hillClimbingParams wCfg wEnv [] [wModel]).2)[1]?).map (fun p => p.name.idx?) =
        some (some 3) := by
  constructor
  · cases hx : ((hillClimbingParams wCfg wEnv [] [wModel]).2)[0]? with
    | none =>
      have hs : (((hillClimbingParams wCfg wEnv [] [wModel]).2)[0]?).isSome = true := by decide
      rw [hx] at hs
      cases hs
    | some p =>
      have h := hill_climbing_ordinals wCfg wEnv [] [wModel] 0 p hx
      simpa using h
  · cases hx : ((hillClimbingParams wCfg wEnv [] [wModel]).2)[1]? with
    | none =>
      have hs : (((hillClimbingParams wCfg wEnv [] [wModel]).2)[1]?).isSome = true := by decide
      rw [hx] at hs
      cases hs
    | some p =>
      have h := hill_climbing_ordinals wCfg wEnv [] [wModel] 1 p hx
      simpa using h

/-! ### C3 — features_selection gating -/

/-- An eligible trained family among the current models materializes as
an attempt of `get_features_selection_params` (the family's best model). -/
theorem fsAttempts_ne_nil (models : List Model) (m : Model) (hm : m ∈ models)
    (hf : m.mtype ∈ fsFamilies) : fsAttempts models ≠ [] := by
  have h1 : m.mtype ∈ uniqueTypes models := by
    unfold uniqueTypes
    exact (mem_isortBy _ _ _).mpr ((mem_dedupStr _ _).mpr (List.mem_map.mpr ⟨m, hm, rfl⟩))
  have h2 : m.mtype ∈ (uniqueTypes models).filter (fun t => fsFamilies.contains t) :=
    List.mem_filter.mpr ⟨h1, (contains_eq_mem _ _).mpr hf⟩
  have h3 : modelsOfType models m.mtype ≠ [] := by
    intro he
    have hlen : (modelsOfType models m.mtype).length = 0 := by rw [he]; rfl
    unfold modelsOfType sortedByLoss at hlen
    rw [length_isortBy] at hlen
    have hmem : m ∈ models.filter (fun x => x.mtype == m.mtype) :=
      List.mem_filter.mpr ⟨hm, by simp⟩
    have hpos := List.length_pos.mpr (List.ne_nil_of_mem hmem)
    omega
  obtain ⟨x, hx⟩ : ∃ x, (modelsOfType models m.mtype).head? = some x := by
    cases hh : modelsOfType models m.mtype with
    | nil => exact absurd hh h3
    | cons a as => exact ⟨a, rfl⟩
  exact List.ne_nil_of_mem (List.mem_filterMap.mpr ⟨m.mtype, h2, hx⟩)

/-- C3 counterexample: with the manifest listing two features and an
eligible trained family present, the stage can still return an **empty**
candidate list — when the dedup ledger already holds the candidate's
fingerprint — so "two or more manifest entries plus an eligible family"
does not guarantee a non-empty list for every ledger state. -/
theorem features_selection_empty_counterexample :
    wModel.mtype ∈ fsFamilies ∧
    wEnv.dropFeaturesFile ("/res" ++ "/drop_features.json") = some ["f1", "f2"] ∧
    2 ≤ (["f1", "f2"] : List String).length ∧
    (featuresSelectionParams wEnv [getParamsKey (fsCandidate ["f1", "f2"] wModel)]
        [wModel] "/res").2 = some [] := by
  decide

/-- C3 amended: the stage returns the null sentinel when the manifest
file is absent and when it lists at most one feature; when it lists two
or more and at least one eligible trained family is present, that family
contributes an attempt, and the returned list is non-empty provided at
least one attempt's candidate fingerprint is not already in the dedup
ledger (as at the stage's single planned invocation in a run). -/
theorem features_selection_gating (env : Env) (st : List String) (models : List Model)
    (rp : String) :
    (env.dropFeaturesFile (rp ++ "/drop_features.json") = none →
      featuresSelectionParams env st models rp = (st, none)) ∧
    (∀ df, env.dropFeaturesFile (rp ++ "/drop_features.json") = some df → df.length ≤ 1 →
      featuresSelectionParams env st models rp = (st, none)) ∧
    ((∃ m ∈ models, m.mtype ∈ fsFamilies) → fsAttempts models ≠ []) ∧
    (∀ df, env.dropFeaturesFile (rp ++ "/drop_features.json") = some df → 2 ≤ df.length →
      (∃ a ∈ fsAttempts models, getParamsKey (fsCandidate df a) ∉ st) →
      ∃ l, (featuresSelectionParams env st models rp).2 = some l ∧ l ≠ []) := by
  refine ⟨?_, ?_, ?_, ?_⟩
  · intro h
    unfold featuresSelectionParams
    rw [h]
  · intro df h hlen
    unfold featuresSelectionParams
    rw [h]
    dsimp only
    rw [if_pos hlen]
  · intro hex
    obtain ⟨m, hm, hf⟩ := hex
    exact fsAttempts_ne_nil models m hm hf
  · intro df h hlen hex
    unfold featuresSelectionParams
    rw [h]
    dsimp only
    rw [if_neg (by omega : ¬ df.length ≤ 1)]
    exact ⟨_, rfl, dedupFold_ne_nil (fsCandidate df) 0 (fsAttempts models) st [] (Or.inl hex)⟩

/-- Witness for C3's amended gating: the fresh-ledger invocation at
concrete inputs returns a non-empty list, and the null-sentinel branches
fire on a manifest-less environment. -/
theorem features_selection_gating_witness :
    (∃ l, (featuresSelectionParams wEnv [] [wModel] "/res").2 = some l ∧ l ≠ []) ∧
    featuresSelectionParams
      { wEnv with dropFeaturesFile := fun _ => none } [] [wModel] "/res" = ([], none) ∧
    featuresSelectionParams
      { wEnv with dropFeaturesFile := fun _ => some ["f1"] } [] [wModel] "/res" = ([], none) := by
  refine ⟨?_, ?_, ?_⟩
  · exact (features_selection_gating wEnv [] [wModel] "/res").2.2.2 ["f1", "f2"] rfl
      (by decide) ⟨wModel, by decide, by decide⟩
  · exact (features_selection_gating { wEnv with dropFeaturesFile := fun _ => none } []
      [wModel] "/res").1 rfl
  · exact (features_selection_gating { wEnv with dropFeaturesFile := fun _ => some ["f1"] } []
      [wModel] "/res").2.1 ["f1"] rfl (by decide)

/-! ### C6 — row/column gating of default_algorithms and not_so_random -/

/-- Removing a family the predicate already rejects does not change a
filtered family list. -/
theorem filter_erase_eq (p : String → Bool) (f : String) (hf : p f = false) :
    ∀ l : List String, (l.filter (fun g => !(g == f))).filter p = l.filter p := by
  intro l
  induction l with
  | nil => rfl
  | cons g gs ih =>
    by_cases hg : (g == f) = true
    · have hgf : g = f := by simpa using hg
      have h1 : (g :: gs).filter (fun x => !(x == f)) = gs.filter (fun x => !(x == f)) := by
        simp [List.filter_cons, hg]
      have h2 : (g :: gs).filter p = gs.filter p := by
        rw [List.filter_cons, hgf, hf]
        rfl
      rw [h1, ih, h2]
    · have h1 : (g :: gs).filter (fun x => !(x == f)) = g :: gs.filter (fun x => !(x == f)) := by
        simp [List.filter_cons, hg]
      rw [h1, List.filter_cons, List.filter_cons, ih]

/-- The learner dict built by the Candidate Factory keeps the registry
short name at `model_type` as long as the merged-in hyperparameter set
carries no `model_type` entry of its own. -/
theorem buildLearner_modelType (cfg : Config) (info : AlgoInfo) (mp : List (String × V))
    (hmp : "model_type" ∉ mp.map Prod.fst) :
    assocGet (buildLearner cfg info mp) "model_type" = some (V.str info.shortName) := by
  unfold buildLearner
  cases hnc : cfg.dataInfo.numClass with
  | none =>
    dsimp only
    rw [assocGet_foldl_assocSet _ _ _ hmp]
    rfl
  | some k =>
    dsimp only
    rw [assocGet_assocSet_ne _ _ _ _ (by decide)]
    rw [assocGet_foldl_assocSet _ _ _ hmp]
    rfl

/-- A candidate built by the Candidate Factory carries the registry
short name of its family as the learner's `model_type`, provided neither
the family's default hyperparameters nor any sampled hyperparameter set
contains a `model_type` entry of its own. -/
theorem getModelParams_modelType (cfg : Config) (env : Env) (mt : String) (seed : Nat)
    (isDef : Bool) (p : Params)
    (hdp : "model_type" ∉ ((env.registry cfg.mlTask mt).defaultParams).map Prod.fst)
    (hrp : ∀ sp s mp, env.randomParams sp s = some mp → "model_type" ∉ mp.map Prod.fst)
    (hp : getModelParams cfg env mt seed isDef = some p) :
    assocGet p.learner "model_type" = some (V.str (env.registry cfg.mlTask mt).shortName) := by
  unfold getModelParams at hp
  cases isDef with
  | true =>
    dsimp only at hp
    rw [if_pos rfl] at hp
    dsimp only at hp
    have hpl := Option.some_inj.mp hp
    have hlearn : p.learner =
        buildLearner cfg (env.registry cfg.mlTask mt)
          (assocSet (env.registry cfg.mlTask mt).defaultParams "seed" (V.int seed)) := by
      rw [← hpl]
    have hkeys : "model_type" ∉
        ((assocSet (env.registry cfg.mlTask mt).defaultParams "seed"
          (V.int seed)).map Prod.fst) := by
      intro hmem
      rcases keys_assocSet _ _ _ _ hmem with h | h
      · exact hdp h
      · exact absurd h (by decide)
    rw [hlearn]
    exact buildLearner_modelType _ _ _ hkeys
  | false =>
    dsimp only at hp
    rw [if_neg Bool.false_ne_true] at hp
    cases hmp : env.randomParams (env.registry cfg.mlTask mt).paramSpace (seed + cfg.seed) with
    | none => rw [hmp] at hp; cases hp
    | some mp =>
      rw [hmp] at hp
      dsimp only at hp
      have hpl := Option.some_inj.mp hp
      have hlearn : p.learner = buildLearner cfg (env.registry cfg.mlTask mt) mp := by
        rw [← hpl]
      rw [hlearn]
      exact buildLearner_modelType _ _ _ (hrp _ _ _ hmp)

/-- C6: a family whose registry-declared `max_rows`/`max_cols` limit is
exceeded by the dataset is never emitted by `default_algorithms` or
`not_so_random`: each stage's output is unchanged when the family is
removed from its iteration list, and (when registry short names are
unambiguous and hyperparameter sets carry no `model_type` entry of their
own) no returned candidate carries the gated family's short name. -/
theorem row_col_gating (cfg : Config) (env : Env) (f : String) (st : List String) (cnt : Nat)
    (hskip : skipIfRowsColsLimit cfg env f = true)
    (hdefKeys : ((defaultFamilies ++ nsrFamilies).all
      (fun g => !((((env.registry cfg.mlTask g).defaultParams).map Prod.fst).contains
        "model_type"))) = true)
    (hrand : ∀ sp s mp, env.randomParams sp s = some mp → "model_type" ∉ mp.map Prod.fst)
    (hshort : ((defaultFamilies ++ nsrFamilies).all
      (fun g => (g == f) ||
        !((env.registry cfg.mlTask g).shortName == (env.registry cfg.mlTask f).shortName)))
      = true) :
    defaultParams cfg env cnt st =
      dedupFold (defaultBuild cfg env) cnt
        ((defaultFamilies.filter (fun g => !(g == f))).filter
          (fun mt => cfg.algorithms.contains mt && !skipIfRowsColsLimit cfg env mt)) st [] ∧
    notSoRandomParams cfg env cnt st =
      dedupFold (nsrBuild cfg env) cnt
        (((nsrFamilies.filter (fun g => !(g == f))).filter
          (fun mt => cfg.algorithms.contains mt && !skipIfRowsColsLimit cfg env mt)).flatMap
          (fun mt => (List.range (cfg.startRandomModels - 1)).map (fun i => (mt, i)))) st [] ∧
    (∀ p ∈ (defaultParams cfg env cnt st).2,
      assocGet p.learner "model_type" ≠ some (V.str (env.registry cfg.mlTask f).shortName)) ∧
    (∀ p ∈ (notSoRandomParams cfg env cnt st).2,
      assocGet p.learner "model_type" ≠ some (V.str (env.registry cfg.mlTask f).shortName)) := by
  have hpredf : (cfg.algorithms.contains f && !skipIfRowsColsLimit cfg env f) = false := by
    rw [hskip]
    simp
  have hshort' : ∀ g, g ∈ defaultFamilies ++ nsrFamilies → g ≠ f →
      (env.registry cfg.mlTask g).shortName ≠ (env.registry cfg.mlTask f).shortName := by
    intro g hg hne
    have := List.all_eq_true.mp hshort g hg
    rcases Bool.or_eq_true_iff.mp this with h | h
    · exact absurd (by simpa using h) hne
    · intro he
      rw [he] at h
      simp at h
  have hdef' : ∀ g, g ∈ defaultFamilies ++ nsrFamilies →
      "model_type" ∉ ((env.registry cfg.mlTask g).defaultParams).map Prod.fst := by
    intro g hg hmem
    have := List.all_eq_true.mp hdefKeys g hg
    rw [(contains_eq_mem _ _).mpr hmem] at this
    simp at this
  have hfam : ∀ (fams : List String) (g : String),
      g ∈ fams.filter (fun mt => cfg.algorithms.contains mt && !skipIfRowsColsLimit cfg env mt) →
      g ∈ fams ∧ g ≠ f := by
    intro fams g hg
    have h1 := List.mem_filter.mp hg
    refine ⟨h1.1, ?_⟩
    intro he
    rw [he, hpredf] at h1
    exact Bool.noConfusion h1.2
  refine ⟨?_, ?_, ?_, ?_⟩
  · unfold defaultParams defaultAttempts
    rw [filter_erase_eq _ _ hpredf]
  · unfold notSoRandomParams nsrAttempts
    rw [filter_erase_eq _ _ hpredf]
  · intro p hp
    rcases dedupFold_mem _ _ _ _ _ p hp with h | ⟨g, hg, n, hn⟩
    · cases h
    · obtain ⟨hgf, hgne⟩ := hfam defaultFamilies g hg
      obtain ⟨q, hq, hpq⟩ : ∃ q, getModelParams cfg env g (n + 1) true = some q ∧
          p = withNameStatus q (getModelName g (n + 1) "Default_") := by
        unfold defaultBuild at hn
        cases hq : getModelParams cfg env g (n + 1) true with
        | none => rw [hq] at hn; cases hn
        | some q =>
          rw [hq] at hn
          exact ⟨q, rfl, (Option.some_inj.mp hn).symm⟩
      have hlearn : p.learner = q.learner := by rw [hpq]; rfl
      have hmt := getModelParams_modelType cfg env g (n + 1) true q
        (hdef' g (List.mem_append.mpr (Or.inl hgf))) hrand hq
      rw [hlearn, hmt]
      intro he
      have := V.str.inj (Option.some_inj.mp he)
      exact hshort' g (List.mem_append.mpr (Or.inl hgf)) hgne this
  · intro p hp
    rcases dedupFold_mem _ _ _ _ _ p hp with h | ⟨a, ha, n, hn⟩
    · cases h
    · obtain ⟨g, hgmem, i, hi, hpair⟩ : ∃ g, g ∈ nsrFamilies.filter
          (fun mt => cfg.algorithms.contains mt && !skipIfRowsColsLimit cfg env mt) ∧
          ∃ i, i ∈ List.range (cfg.startRandomModels - 1) ∧ a = (g, i) := by
        unfold nsrAttempts at ha
        obtain ⟨g, hg, hmem⟩ := List.mem_flatMap.mp ha
        obtain ⟨i, hi, he⟩ := List.mem_map.mp hmem
        exact ⟨g, hg, i, hi, he.symm⟩
      obtain ⟨hgf, hgne⟩ := hfam nsrFamilies g hgmem
      obtain ⟨q, hq, hpq⟩ : ∃ q, getModelParams cfg env g (i + 1) false = some q ∧
          p = withNameStatus q (getModelName g (n + 1) "") := by
        unfold nsrBuild at hn
        rw [hpair] at hn
        cases hq : getModelParams cfg env g (i + 1) false with
        | none => rw [hq] at hn; cases hn
        | some q =>
          rw [hq] at hn
          exact ⟨q, rfl, (Option.some_inj.mp hn).symm⟩
      have hlearn : p.learner = q.learner := by rw [hpq]; rfl
      have hmt := getModelParams_modelType cfg env g (i + 1) false q
        (hdef' g (List.mem_append.mpr (Or.inr hgf))) hrand hq
      rw [hlearn, hmt]
      intro he
      have := V.str.inj (Option.some_inj.mp he)
      exact hshort' g (List.mem_append.mpr (Or.inr hgf)) hgne this

/-- Witness for C6: `LightGBM` carries `max_rows = 1000`, the dataset
has 5000 rows, and the gating conclusions hold at concrete inputs. -/
theorem row_col_gating_witness :
    skipIfRowsColsLimit wCfg wEnv "LightGBM" = true ∧
    (∀ p ∈ (defaultParams wCfg wEnv 0 []).2,
      assocGet p.learner "model_type" ≠
        some (V.str (wEnv.registry wCfg.mlTask "LightGBM").shortName)) := by
  have hrand : ∀ sp s mp, wEnv.randomParams sp s = some mp →
      "model_type" ∉ mp.map Prod.fst := by
    intro sp s mp h
    have : [("eta", V.int (Int.ofNat s))] = mp := by simpa [wEnv] using h
    rw [← this]
    simp
  have h := row_col_gating wCfg wEnv "LightGBM" [] 0 (by decide) (by decide) hrand (by decide)
  exact ⟨by decide, h.2.2.1⟩

end MljarTuner
